import Mathlib

/-! Escaping, UPDATE statement generation, column widths and view navigation of myadm.

A shallow embedding of `src/myadm.c` (with the constants of `src/config.def.h`).

Conventions of the embedding.

* A byte (`char`) is a natural number; a C buffer is a `List Nat` holding the bytes
  that were written to it.  Reading a string buffer one position past its contents
  yields the NUL terminator, reads are therefore `List.getD _ _ 0`.
* `int` counters that only index such buffers are natural numbers; the cursor and the
  item count of a view, on which the source subtracts, are integers.
* A computation that writes through a NULL pointer, or outside the buffer it was
  given, has no defined result and is `none`.  Where the result of such a call is
  stored in a view (the field list and count that `mysql_fillview` takes from
  `mysql_fields`), the view holds `none` for it.
-/

namespace Myadm

/-! ## Bytes and C strings -/

/-- The bytes of an ASCII string literal. -/
def bytes (s : String) : List Nat := s.toList.map Char.toNat

/-- The byte `'\\'`. -/
def BACKSLASH : Nat := 92

/-- The byte `'\''`. -/
def SQUOTE : Nat := 39

/-- What `%s`, `strlen` and `strcmp` see of a buffer: the bytes before the first NUL. -/
def cstr (buf : List Nat) : List Nat := buf.takeWhile (fun b => b != 0)

/-- Value of `strlen`. -/
def strlen (buf : List Nat) : Nat := (cstr buf).length

/-! ## escape (myadm.c 339-350) -/

/-- The `for(i = 0; i < sz; ++i)` loop of `escape`: `fuel` counts the iterations
left (`sz - i`), `esc` is the prefix of the output written so far, whose length is
`ei`.  A backslash is stored first when `s[i] == c && (!q || s[i+1] != q)`. -/
def escapeLoop (s : List Nat) (c q : Nat) : Nat → Nat → List Nat → List Nat
  | 0, _, esc => esc
  | fuel + 1, i, esc =>
    let esc1 := if s.getD i 0 = c ∧ (q = 0 ∨ s.getD (i + 1) 0 ≠ q) then esc ++ [BACKSLASH] else esc
    escapeLoop s c q fuel (i + 1) (esc1 ++ [s.getD i 0])

/-- The call `escape(esc, s, sz, c, q)`: the first component is what is stored in
`esc` (the escaped bytes followed by the terminator written by `esc[ei] = 0`), the
second is the returned `ei`. -/
def escape (s : List Nat) (sz : Nat) (c q : Nat) : List Nat × Nat :=
  let out := escapeLoop s c q sz 0 []
  (out ++ [0], out.length)

/-- The escaping rule in the words of the specification: scan the bytes left to right;
a byte equal to the target `c` gets a backslash in front of it when no quote companion
is configured (`q = 0`) or the following byte is not `q`; the byte itself is always
emitted.  The byte following the last one is the terminator `0`. -/
def escapeSpec (c q : Nat) : List Nat → List Nat
  | [] => []
  | b :: rest =>
    (if b = c ∧ (q = 0 ∨ rest.headD 0 ≠ q) then [BACKSLASH] else []) ++ b :: escapeSpec c q rest

/-! ## Data model (myadm.c 39-88, config.def.h 3-4) -/

/-- Size of `Field.name`. -/
def MYSQLIDLEN : Nat := 64

/-- Cap on a rendered column width (config.def.h). -/
def MAXCOLSZ : Nat := 19

/-- One result row: `cols[i]` is the buffer of column `i` (its bytes; the allocation
is zero filled and larger than the value, so the value is followed by NUL),
`lens[i]` its byte length, `ncols` the column count, `id` the 1-based sequence
number.  The `next` link is the position in the enclosing list. -/
structure Item where
  cols : List (List Nat)
  lens : List Nat
  ncols : Nat
  id : Nat
deriving DecidableEq, Repr

/-- One column descriptor: the bytes stored in `name[MYSQLIDLEN]` (the rest of the
zero-initialised array is NUL) and the declared name length. -/
structure Field where
  name : List Nat
  len : Nat
deriving DecidableEq, Repr

/-! ## strncmp, snprintf -/

/-- The comparison loop of `strncmp(a, b, n)` from index `i` with `fuel` positions
left: the difference of the first differing bytes, `0` when the first `n` bytes agree
or both strings end before that. -/
def strncmpLoop (a b : List Nat) : Nat → Nat → Int
  | 0, _ => 0
  | fuel + 1, i =>
    if a.getD i 0 ≠ b.getD i 0 then (a.getD i 0 : Int) - (b.getD i 0 : Int)
    else if a.getD i 0 = 0 then 0
    else strncmpLoop a b fuel (i + 1)

/-- Value of `strncmp(a, b, n)`. -/
def strncmp (a b : List Nat) (n : Nat) : Int := strncmpLoop a b n 0

/-- Memory after storing `data` at offset `off` of the buffer image `mem`; positions
between the old contents and `off` that were never written are filled with `0` (they
follow a terminator and are never read). -/
def writeAt (mem : List Nat) (off : Nat) (data : List Nat) : List Nat :=
  mem.take off ++ List.replicate (off - mem.length) 0 ++ data ++ mem.drop (off + data.length)

/-- The bytes `snprintf(_, n, ...)` stores before the terminator, `out` being the
fully formatted text: at most `n - 1` of them. -/
def snprintf (n : Nat) (out : List Nat) : List Nat := out.take (n - 1)

/-! ## mksql_update_record (myadm.c 407-436) -/

/-- The format `"\n%c`%s` = '%s'"` applied to a separator character and two strings. -/
def fmtClause (sep : Nat) (name col : List Nat) : List Nat :=
  bytes "\n" ++ [sep] ++ bytes "`" ++ name ++ bytes "` = '" ++ col ++ bytes "'"

/-- The format `"UPDATE `%s` SET%s\nWHERE `%s` = '%s'"` applied to four strings. -/
def fmtUpdate (tbl sqlfds pk pkv : List Nat) : List Nat :=
  bytes "UPDATE `" ++ tbl ++ bytes "` SET" ++ sqlfds ++ bytes "\nWHERE `" ++ pk
    ++ bytes "` = '" ++ pkv ++ bytes "'"

/-- The locals of `mksql_update_record` that live across iterations: `pkv` (NULL or
the buffer of the matched column), `max`, `col` (NULL or the size of the block it
points to), the image of `sqlfds`, `cnt` and `size`. -/
structure UpdState where
  pkv : Option (List Nat)
  max : Nat
  col : Option Nat
  sqlfds : List Nat
  cnt : Nat
  size : Nat
deriving DecidableEq, Repr

/-- One iteration of the loop over the fields, for field `fld` at index `i`.
`bufsiz` is `BUFSIZ` of `<stdio.h>`. -/
def updStep (bufsiz : Nat) (item : Item) (pk : List Nat) (i : Nat) (fld : Field)
    (st : UpdState) : Option UpdState := do
  -- `item->cols[i]`, `item->lens[i]`
  let coli ← item.cols.get? i
  let leni ← item.lens.get? i
  -- `if(!pkv && !strncmp(pk, fld->name, fld->len)) pkv = item->cols[i];`
  let pkv := if st.pkv.isNone ∧ strncmp pk fld.name fld.len = 0 then some coli else st.pkv
  -- `if(item->lens[i] > max) { max = item->lens[i]; col = realloc(col, max*2+1); }`
  let max := if leni > st.max then leni else st.max
  let col := if leni > st.max then some (leni * 2 + 1) else st.col
  -- `len = 10 + fld->len; len += escape(col, item->cols[i], item->lens[i], '\'', 0);`
  let esc := escape coli leni SQUOTE 0
  -- a store through the NULL `col`, or past the end of its block, is undefined
  let cap ← col
  if cap < esc.1.length then none else
  let len := 10 + fld.len + esc.2
  -- `if(cnt + len >= size) sqlfds = realloc(sqlfds, (size += (len <= BUFSIZ ? BUFSIZ : len)));`
  let size := if st.cnt + len ≥ st.size then st.size + (if len ≤ bufsiz then bufsiz else len)
    else st.size
  -- `snprintf(&sqlfds[cnt], len, "\n%c`%s` = '%s'", cnt ? ',' : ' ', fld->name, col);`
  -- (`%s` running off the end of `fld->name`, or a store past `size`, is undefined)
  if MYSQLIDLEN ≤ strlen fld.name then none else
  let out := snprintf len
    (fmtClause (if st.cnt ≠ 0 then (44 : Nat) else 32) (cstr fld.name) (cstr esc.1))
  if size < st.cnt + out.length + 1 then none else
  -- `cnt += len - 1;`
  some { pkv := pkv, max := max, col := col,
         sqlfds := writeAt st.sqlfds st.cnt (out ++ [0]),
         cnt := st.cnt + len - 1, size := size }

/-- The loop `for(i = 0, fld = fields; fld; fld = fld->next, ++i)`. -/
def updLoop (bufsiz : Nat) (item : Item) (pk : List Nat) :
    List Field → Nat → UpdState → Option UpdState
  | [], _, st => some st
  | fld :: rest, i, st =>
    match updStep bufsiz item pk i fld st with
    | none => none
    | some st1 => updLoop bufsiz item pk rest (i + 1) st1

/-- The call `mksql_update_record(item, fields, tbl, pk)`: the returned C string, or
`none` when the run has no defined result (`escape` storing through the NULL `col`,
`strlen` of the NULL `pkv`, an index outside the item's arrays). -/
def mksql_update_record (bufsiz : Nat) (item : Item) (fields : List Field)
    (tbl pk : List Nat) : Option (List Nat) := do
  let st ← updLoop bufsiz item pk fields 0
    { pkv := none, max := 0, col := none, sqlfds := [], cnt := 0, size := 0 }
  -- `size = 1 + 28 + cnt + strlen(pk) + strlen(pkv) + strlen(tbl);`
  let pkv ← st.pkv
  let size := 1 + 28 + st.cnt + strlen pk + strlen pkv + strlen tbl
  -- `snprintf(sql, size, "UPDATE `%s` SET%s\nWHERE `%s` = '%s'", tbl, sqlfds, pk, pkv);`
  some (snprintf size (fmtUpdate (cstr tbl) (cstr st.sqlfds) (cstr pk) (cstr pkv)))

/-- An item as `mysql_items` builds it from the given column values. -/
def mkItem (id : Nat) (vals : List (List Nat)) : Item :=
  { cols := vals, lens := vals.map List.length, ncols := vals.length, id := id }

/-- A field as `mysql_fields` builds it from a column name. -/
def mkField (name : List Nat) : Field := { name := name, len := name.length }

/-! ## Layout of the generated statement -/

/-- The value `pkv` ends with: the loop keeps the column of the first field for
which `strncmp(pk, fld->name, fld->len)` is `0`. -/
def pkLookup (pk : List Nat) : List Field → List (List Nat) → Option (List Nat)
  | f :: fs, v :: vs => if strncmp pk f.name f.len = 0 then some v else pkLookup pk fs vs
  | _, _ => none

/-- The text of the SET clauses for the given fields and value literals (the already
escaped values): clause `k` is `fmtClause` with a space (first clause) or a comma
(later clauses) as separator character, the name of field `k` and literal `k`. -/
def setClauses : Bool → List Field → List (List Nat) → List Nat
  | first, f :: fs, l :: ls =>
    fmtClause (if first then 32 else 44) f.name l ++ setClauses false fs ls
  | _, _, _ => []

/-- Escaping for `'` spelled out: a backslash is put in front of every single quote,
every other byte is copied. -/
def quoteEscaped (v : List Nat) : List Nat :=
  v.flatMap (fun b => if b = SQUOTE then [BACKSLASH, b] else [b])

/-! ## getmaxlengths (myadm.c 367-390) -/

/-- The value `(n <= MAXCOLSZ ? n : MAXCOLSZ)`. -/
def capped (n : Nat) : Nat := if n ≤ MAXCOLSZ then n else MAXCOLSZ

/-- The loop `for(fld = fields, i = 0; fld; fld = fld->next, ++i) lens[i] = ...`;
a store outside `lens` has no defined result. -/
def fieldsLoop : List Field → Nat → List Nat → Option (List Nat)
  | [], _, lens => some lens
  | fld :: rest, i, lens =>
    if i < lens.length then fieldsLoop rest (i + 1) (lens.set i (capped fld.len)) else none

/-- The loop `for(i = 0; i < item->ncols; ++i) if(lens[i] < item->lens[i]) lens[i] = ...`
with `fuel` iterations left. -/
def colsLoop (item : Item) : Nat → Nat → List Nat → Option (List Nat)
  | 0, _, lens => some lens
  | fuel + 1, i, lens =>
    match lens.get? i, item.lens.get? i with
    | some l, some il =>
      colsLoop item fuel (i + 1) (if l < il then lens.set i (capped il) else lens)
    | _, _ => none

/-- The loop `for(item = items; item; item = item->next)`. -/
def itemsLoop : List Item → List Nat → Option (List Nat)
  | [], lens => some lens
  | item :: rest, lens =>
    match colsLoop item item.ncols 0 lens with
    | none => none
    | some lens1 => itemsLoop rest lens1

/-- The column count `getmaxlengths` allocates for: `items->ncols` when there are
items, else the number of fields. -/
def ncolsOf (items : List Item) (fields : List Field) : Nat :=
  match items with
  | item :: _ => item.ncols
  | [] => fields.length

/-- The call `getmaxlengths(items, fields)`: `some none` is the NULL result,
`some (some lens)` the array of `ncols` widths, `none` a run without defined result
(an index outside an array). -/
def getmaxlengths (items : List Item) (fields : List Field) : Option (Option (List Nat)) :=
  if items = [] ∧ fields = [] then some none
  else
    match fieldsLoop fields 0 (List.replicate (ncolsOf items fields) 0) with
    | none => none
    | some lens1 =>
      match itemsLoop items lens1 with
      | none => none
      | some lens2 => some (some lens2)

/-- Declared name length of field `i`, `0` when there is no such field. -/
def fieldLen (fields : List Field) (i : Nat) : Nat :=
  match fields.get? i with
  | some f => f.len
  | none => 0

/-- Longest value length in column `i` over the items. -/
def maxValLen (items : List Item) (i : Nat) : Nat :=
  (items.map (fun it => it.lens.getD i 0)).foldr max 0

/-! ## Views and navigation (myadm.c 145-157, 352-365, 392-405, 499-552, 647-657,
710-714, 828-900) -/

/-- The functions a `Mode.func` pointer can hold. -/
inductive ShowFn where
  | viewdblist_show
  | viewdb_show
  | viewtable_show
deriving DecidableEq, Repr

/-- The struct `Mode`: the name and the show function (NULL is `none`). -/
structure Mode where
  name : String
  func : Option ShowFn
deriving DecidableEq, Repr

/-- The struct `View` without its form: mode, item list, the choice (the item of the
parent view the pointer refers to), field list, cursor, item and field counts.  The
`next` link is the position in the stack.  The field list and the field count are
`none` when the `mysql_fields` call that filled them had no defined result. -/
structure View where
  mode : Mode
  items : List Item
  choice : Option Item
  fields : Option (List Field)
  cur : Int
  nitems : Int
  nfields : Option Int
deriving DecidableEq, Repr

/-- The globals: the stack `views` (most recent first), `selview` (the position in
`views` it points to, `none` for NULL), `running`, the text of the status line, and
whether `die` has ended the process. -/
structure State where
  views : List View
  selview : Option Nat
  running : Bool
  status : String
  died : Option String
deriving DecidableEq, Repr

/-- One column of a result set as the client library reports it. -/
structure MysqlField where
  name : List Nat
  name_length : Nat
deriving DecidableEq, Repr

/-- A stored result set: the column count, the column metadata and the rows, each a
list of cells (the bytes of a cell; its length is what `mysql_fetch_lengths` gives). -/
structure MysqlRes where
  num_fields : Nat
  fields : List MysqlField
  rows : List (List (List Nat))
deriving DecidableEq, Repr

/-- The view `selview` points to. -/
def State.sel (s : State) : Option View :=
  match s.selview with
  | none => none
  | some k => s.views.get? k

/-- Store through `selview`. -/
def State.setSel (s : State) (v : View) : State :=
  match s.selview with
  | none => s
  | some k => { s with views := s.views.set k v }

/-- The search loop of `getitem`: the item at position `pos`, counting from `n`. -/
def getitemLoop : List Item → Int → Int → Option Item
  | [], _, _ => none
  | item :: rest, n, pos => if n = pos then some item else getitemLoop rest (n + 1) pos

/-- The call `getitem(pos)`. -/
def getitem (s : State) (pos : Int) : Option Item :=
  match s.sel with
  | none => none
  | some v => getitemLoop v.items 0 (if pos = 0 then v.cur else pos)

/-- The call `itemsel(arg)` with `arg->i = d`. -/
def itemsel (s : State) (d : Int) : State :=
  match s.sel with
  | none => s
  | some v =>
    let pos := v.cur + d
    let pos := if pos < 0 then 0 else if pos ≥ v.nitems then v.nitems - 1 else pos
    s.setSel { v with cur := pos }

/-- The call `attachitem(i, ii)`: the item is linked after the last one. -/
def attachitem (i : Item) (ii : List Item) : List Item := ii ++ [i]

/-- The call `attachfield(f, ff)`. -/
def attachfield (f : Field) (ff : List Field) : List Field := ff ++ [f]

/-- The `while((row = mysql_fetch_row(res)))` loop of `mysql_items`, `id` being the
number of rows seen so far. -/
def mysql_itemsLoop (nfds : Nat) : List (List (List Nat)) → Nat → List Item → List Item
  | [], _, items => items
  | row :: rest, id, items =>
    let cols := (List.range nfds).map (fun i => row.getD i [])
    let item : Item := { cols := cols, lens := cols.map List.length, ncols := nfds, id := id + 1 }
    mysql_itemsLoop nfds rest (id + 1) (attachitem item items)

/-- The call `mysql_items(res, &items)`: the new list and the returned row count. -/
def mysql_items (res : MysqlRes) : List Item × Int :=
  (mysql_itemsLoop res.num_fields res.rows 0 [], (res.rows.length : Int))

/-- The loop of `mysql_fields` over the column metadata.  The `memcpy` of
`name_length` bytes into `name[MYSQLIDLEN]` has no bound: with a longer name it
stores past the array, and the run has no defined result. -/
def mysql_fieldsLoop : List MysqlField → List Field → Option (List Field)
  | [], fields => some fields
  | fd :: rest, fields =>
    if MYSQLIDLEN < fd.name_length then none
    else mysql_fieldsLoop rest
      (attachfield { name := fd.name.take fd.name_length, len := fd.name_length } fields)

/-- The call `mysql_fields(res, &fields)` on the list `fields`: the new list and the
returned count, `none` when a name overruns its array. -/
def mysql_fields (res : MysqlRes) (fields : List Field) : Option (List Field × Int) :=
  if res.num_fields = 0 then some (fields, 0)
  else
    match mysql_fieldsLoop (res.fields.take res.num_fields) fields with
    | none => none
    | some fl => some (fl, (res.num_fields : Int))

/-- The call `mysql_fillview(res, showfds)`; its callers have set `selview`.  The
items and `nitems` are stored before `mysql_fields` runs; what that call yields is
stored as the field list and count of the view. -/
def mysql_fillview (s : State) (res : MysqlRes) (showfds : Bool) : State :=
  match s.sel with
  | none => s
  | some v =>
    let r := mysql_items res
    let v1 := { v with items := r.1, nitems := r.2 }
    let v2 := if showfds then
        { v1 with fields := (mysql_fields res []).map Prod.fst,
                  nfields := (mysql_fields res []).map Prod.snd }
      else v1
    s.setSel v2

/-- The call `die(errstr, ...)`: the process ends with the globals as they are,
nothing after it runs; the format string is kept as the message. -/
def die (s : State) (msg : String) : State := { s with died := some msg }

/-- The show functions `viewdblist_show`, `viewdb_show`, `viewtable_show`; `res` is
what the listing query gives (`none` when `mysql_exec` returns `-1` or no result is
stored).  The rendering calls that follow (`ui_listview`, `ui_set` of title and info)
change the form only, which is not part of the state. -/
def ShowFn.run (f : ShowFn) (s : State) (res : Option MysqlRes) : State :=
  match f, res with
  | .viewdblist_show, none => die s "show databases"
  | .viewdb_show, none => die s "show tables"
  | .viewtable_show, none => die s "select from `%s`"
  | .viewdblist_show, some r => mysql_fillview s r false
  | .viewdb_show, some r => mysql_fillview s r false
  | .viewtable_show, some r => mysql_fillview s r true

/-- The call `attach(v)`. -/
def attach (s : State) (v : View) : State := { s with views := v :: s.views }

/-- The call `newaview(name, func)`: the zero-filled view with its choice and mode,
pushed on `views`; the result points to position `0`. -/
def newaview (s : State) (name : String) (func : ShowFn) : State × Nat :=
  let v : View := { mode := { name := name, func := some func }, items := [],
                    choice := getitem s 0, fields := some [], cur := 0, nitems := 0,
                    nfields := some 0 }
  (attach s v, 0)

/-- The call `setview(name, func)`. -/
def setview (s : State) (name : String) (func : ShowFn) (res : Option MysqlRes) : State :=
  let r := newaview s name func
  func.run { r.1 with selview := some r.2 } res

/-- The call `ui_set("status", msg)`: nothing happens while `selview` is NULL. -/
def ui_set_status (s : State) (msg : String) : State :=
  match s.selview with
  | none => s
  | some _ => { s with status := msg }

/-- The call `viewdb(arg)`; `res` is the result of the listing query it runs. -/
def viewdb (s : State) (res : Option MysqlRes) : State :=
  match getitem s 0 with
  | none => ui_set_status s "No database selected."
  | some _ => setview s "tables" .viewdb_show res

/-- The call `viewtable(arg)`. -/
def viewtable (s : State) (res : Option MysqlRes) : State :=
  match getitem s 0 with
  | none => ui_set_status s "No table selected."
  | some _ => setview s "records" .viewtable_show res

/-! ## viewprev, reload (myadm.c 211-219, 247-253, 673-684, 866-875) -/

/-- The call `detach(v)` for the view at position `k` of `views`. -/
def detach (s : State) (k : Nat) : State := { s with views := s.views.eraseIdx k }

/-- The call `cleanupview(v)` for the view at position `k`: the view leaves the stack,
its items, fields and form are released. -/
def cleanupview (s : State) (k : Nat) : State := detach s k

/-- The call `viewprev(arg)`: nothing happens unless `selview` and `selview->next`
are both set; else the selected view is cleaned up and `selview` points to the view
that followed it, which now stands at the same position. -/
def viewprev (s : State) : State :=
  match s.selview with
  | none => s
  | some k =>
    match s.views.get? k, s.views.get? (k + 1) with
    | some _, some _ => { cleanupview s k with selview := some k }
    | _, _ => s

/-- The call `reload(arg)`; `res` is what the listing query of the show function
gives.  The `ui_set("pos", ...)` that follows changes the form only. -/
def reload (s : State) (res : Option MysqlRes) : State :=
  match s.sel with
  | none => s
  | some v =>
    match v.mode.func with
    | none => s
    | some f => f.run s res

/-! ## Key dispatch (myadm.c 36, 65-70, 686-708, config.def.h 20-34) -/

/-- The functions named in the `keys` table of config.def.h. -/
inductive KeyFn where
  | quit
  | viewprev
  | itempos
  | reload
  | tables
  | records
deriving DecidableEq, Repr

/-- The struct `Key`: mode filter (NULL is `none`), key code, function and the `i`
member of its argument. -/
structure Key where
  mode : Option String
  modkey : Int
  func : KeyFn
  arg : Int
deriving DecidableEq, Repr

/-- The code `KEY_UP` of `<curses.h>`. -/
def KEY_UP : Int := 259

/-- The code `KEY_DOWN` of `<curses.h>`. -/
def KEY_DOWN : Int := 258

/-- The table `keys` of config.def.h, in the order written there. -/
def keys : List Key :=
  [ { mode := none, modkey := 81, func := .quit, arg := 1 },
    { mode := none, modkey := 113, func := .viewprev, arg := 0 },
    { mode := none, modkey := 107, func := .itempos, arg := -1 },
    { mode := none, modkey := KEY_UP, func := .itempos, arg := -1 },
    { mode := none, modkey := 106, func := .itempos, arg := 1 },
    { mode := none, modkey := KEY_DOWN, func := .itempos, arg := 1 },
    { mode := none, modkey := 73, func := .reload, arg := 0 },
    { mode := some "databases", modkey := 113, func := .quit, arg := 0 },
    { mode := some "databases", modkey := 10, func := .tables, arg := 0 },
    { mode := some "databases", modkey := 32, func := .tables, arg := 0 },
    { mode := some "tables", modkey := 10, func := .records, arg := 500 },
    { mode := some "tables", modkey := 32, func := .records, arg := 500 } ]

/-- The macro `ISCURMODE(N)`: `!(N && selview && strcmp(selview->mode.name, N))`. -/
def ISCURMODE (s : State) (n : Option String) : Bool :=
  match n, s.sel with
  | some name, some v => decide (v.mode.name = name)
  | _, _ => true

/-- The loop `for(i = 0; i < LENGTH(keys); ++i)` of `run` with its `break`: the
entry `k` is left pointing to. -/
def findKey (s : State) (code : Int) : List Key → Option Key
  | [] => none
  | k :: rest =>
    if ISCURMODE s k.mode = true ∧ k.modkey = code then some k else findKey s code rest

/-- One pass of the body of `while(running)` in `run` for the code `getch` returned
and the table `tbl`; `act` is what calling an entry's function with its argument does
to the state. -/
def runStep (act : KeyFn → Int → State → State) (tbl : List Key) (s : State) (code : Int) :
    State :=
  if code < 0 then s
  else
    match findKey s code tbl with
    | none => s
    | some k => act k.func k.arg (ui_set_status s "")

/-- Whether an entry qualifies for the code and the mode name of the current view:
its filter is NULL or equals the name, and its key is the code. -/
def qualifies (name : String) (code : Int) (k : Key) : Prop :=
  (k.mode = none ∨ k.mode = some name) ∧ k.modkey = code

/-! ## Loaded result sets -/

/-- The item the row at position `k` (from 0) of a result with `c` columns is to
become: the cells and their lengths in column order, `ncols = c`, `id = k + 1`. -/
def loadedItem (c k : Nat) (row : List (List Nat)) : Item :=
  { cols := row, lens := row.map List.length, ncols := c, id := k + 1 }

/-- The message `die` is called with when the listing query of a show function
fails. -/
def ShowFn.dieMsg : ShowFn → String
  | .viewdblist_show => "show databases"
  | .viewdb_show => "show tables"
  | .viewtable_show => "select from `%s`"

/-! ## A sample state -/

/-- A databases view with three rows, the cursor on the first. -/
def exView : View :=
  { mode := { name := "databases", func := some .viewdblist_show },
    items := [mkItem 1 [bytes "mysql"], mkItem 2 [bytes "shop"], mkItem 3 [bytes "test"]],
    choice := none, fields := some [], cur := 0, nitems := 3, nfields := some 0 }

/-- The state after start-up on a server with three databases. -/
def exState : State :=
  { views := [exView], selview := some 0, running := true, status := "", died := none }

/-- A result of `show tables` with two rows. -/
def exTables : MysqlRes :=
  { num_fields := 1, fields := [{ name := bytes "Tables_in_mysql", name_length := 15 }],
    rows := [[bytes "db"], [bytes "user"]] }

/-- The result of `select * from t` after two of the three rows were deleted. -/
def exOneRow : MysqlRes :=
  { num_fields := 1, fields := [{ name := bytes "id", name_length := 2 }], rows := [[bytes "1"]] }

/-- A result set with one row whose only column has a name of 70 bytes. -/
def exLongName : MysqlRes :=
  { num_fields := 1, fields := [{ name := List.replicate 70 97, name_length := 70 }],
    rows := [[bytes "1"]] }

/-- A databases view without rows. -/
def exEmptyView : View :=
  { mode := { name := "databases", func := some .viewdblist_show }, items := [],
    choice := none, fields := some [], cur := 0, nitems := 0, nfields := some 0 }

/-- A state whose only view is empty. -/
def exEmptyState : State :=
  { views := [exEmptyView], selview := some 0, running := true, status := "", died := none }

/-- A sample reading of the functions of the key table: `itempos`, `tables` and
`records` as `itemsel`, `viewdb` and `viewtable`, the listing queries answering with
fixed results and the user confirming `quit`. -/
def exAct : KeyFn → Int → State → State
  | .quit, _, s => { s with running := false }
  | .viewprev, _, s => viewprev s
  | .itempos, d, s => itemsel s d
  | .reload, _, s => reload s (some exOneRow)
  | .tables, _, s => viewdb s (some exTables)
  | .records, _, s => viewtable s (some exOneRow)

/-! ## Theorems -/

theorem getD_append_at (pre : List Nat) (b : Nat) (rest : List Nat) :
    (pre ++ b :: rest).getD pre.length 0 = b := by
  rw [List.getD_eq_getElem?_getD, List.getElem?_append_right (Nat.le_refl _)]
  simp

theorem getD_append_next (pre : List Nat) (b : Nat) (rest : List Nat) :
    (pre ++ b :: rest).getD (pre.length + 1) 0 = rest.headD 0 := by
  rw [List.getD_eq_getElem?_getD, List.getElem?_append_right (Nat.le_succ _)]
  cases rest <;> simp

theorem escapeLoop_eq (c q : Nat) :
    ∀ (rest pre acc : List Nat),
      escapeLoop (pre ++ rest) c q rest.length pre.length acc = acc ++ escapeSpec c q rest := by
  intro rest
  induction rest with
  | nil => intro pre acc; simp [escapeLoop, escapeSpec]
  | cons b rest ih =>
    intro pre acc
    have h := ih (pre ++ [b])
    simp only [List.append_assoc, List.singleton_append, List.length_append,
      List.length_singleton] at h
    simp only [List.length_cons, escapeLoop, getD_append_at, getD_append_next, h, escapeSpec]
    split <;> simp

theorem escape_eq_spec (s : List Nat) (c q : Nat) :
    escape s s.length c q = (escapeSpec c q s ++ [0], (escapeSpec c q s).length) := by
  have h := escapeLoop_eq c q s [] []
  simp only [List.nil_append, List.length_nil] at h
  simp [escape, h]

theorem cstr_append_zero (l rest : List Nat) (h : 0 ∉ l) : cstr (l ++ 0 :: rest) = l := by
  induction l with
  | nil => simp [cstr]
  | cons a l ih =>
    have ha : a ≠ 0 := fun e => h (by simp [e])
    have hl : 0 ∉ l := fun e => h (by simp [e])
    have hb : (a != 0) = true := by simpa using ha
    have := ih hl
    simp only [cstr] at this ⊢
    simp [List.takeWhile_cons, hb, this]

theorem cstr_of_not_mem (l : List Nat) (h : 0 ∉ l) : cstr l = l := by
  induction l with
  | nil => simp [cstr]
  | cons a l ih =>
    have ha : a ≠ 0 := fun e => h (by simp [e])
    have hl : 0 ∉ l := fun e => h (by simp [e])
    have hb : (a != 0) = true := by simpa using ha
    have := ih hl
    simp only [cstr] at this ⊢
    simp [List.takeWhile_cons, hb, this]

theorem escapeSpec_not_mem_zero (c q : Nat) (l : List Nat) (h : 0 ∉ l) :
    0 ∉ escapeSpec c q l := by
  induction l with
  | nil => simp [escapeSpec]
  | cons a l ih =>
    have ha : a ≠ 0 := fun e => h (by simp [e])
    have hl : 0 ∉ l := fun e => h (by simp [e])
    simp only [escapeSpec]
    split <;> simp [BACKSLASH, ih hl, Ne.symm ha]

theorem escapeSpec_length_le (c q : Nat) (l : List Nat) :
    (escapeSpec c q l).length ≤ 2 * l.length := by
  induction l with
  | nil => simp [escapeSpec]
  | cons a l ih =>
    simp only [escapeSpec]
    split <;> simp <;> omega

theorem escapeSpec_squote (v : List Nat) : escapeSpec SQUOTE 0 v = quoteEscaped v := by
  induction v with
  | nil => simp [escapeSpec, quoteEscaped]
  | cons a l ih =>
    simp only [escapeSpec, quoteEscaped, List.flatMap_cons] at ih ⊢
    rw [ih]
    split <;> simp_all

theorem fmtClause_length (sep : Nat) (name col : List Nat) :
    (fmtClause sep name col).length = 9 + name.length + col.length := by
  simp [fmtClause, bytes]
  omega

theorem fmtClause_not_mem_zero (sep : Nat) (name col : List Nat) (hs : sep ≠ 0)
    (hn : 0 ∉ name) (hc : 0 ∉ col) : 0 ∉ fmtClause sep name col := by
  simp [fmtClause, bytes, hn, hc, Ne.symm hs]

theorem fmtUpdate_length (tbl sqlfds pk pkv : List Nat) :
    (fmtUpdate tbl sqlfds pk pkv).length
      = 27 + tbl.length + sqlfds.length + pk.length + pkv.length := by
  simp [fmtUpdate, bytes]
  omega

theorem writeAt_append (acc tl data : List Nat) (htl : tl.length ≤ 1) (hd : 1 ≤ data.length) :
    writeAt (acc ++ tl) acc.length data = acc ++ data := by
  simp only [writeAt, List.take_left', List.length_append]
  have h1 : acc.length - (acc.length + tl.length) = 0 := by omega
  have h2 : List.drop (acc.length + data.length) (acc ++ tl) = [] := by
    apply List.drop_eq_nil_of_le
    simp only [List.length_append]
    omega
  simp [h1, h2]

theorem updStep_ok (bufsiz : Nat) (item : Item) (pk : List Nat) (i : Nat) (fld : Field)
    (st : UpdState) (v acc tl : List Nat)
    (hcol : item.cols.get? i = some v) (hlen : item.lens.get? i = some v.length)
    (hv : 0 ∉ v) (hfl : fld.len = fld.name.length) (hfn : 0 ∉ fld.name)
    (hf64 : fld.name.length < MYSQLIDLEN)
    (hbuf : st.sqlfds = acc ++ tl) (htl : tl.length ≤ 1) (hcnt : st.cnt = acc.length)
    (hsize : st.cnt ≤ st.size)
    (hcap : st.max < v.length ∨ st.col = some (st.max * 2 + 1)) :
    ∃ st1, updStep bufsiz item pk i fld st = some st1 ∧
      st1.sqlfds = (acc ++ fmtClause (if acc.length ≠ 0 then 44 else 32) fld.name
        (escapeSpec SQUOTE 0 v)) ++ [0] ∧
      st1.cnt = (acc ++ fmtClause (if acc.length ≠ 0 then 44 else 32) fld.name
        (escapeSpec SQUOTE 0 v)).length ∧
      st1.cnt ≤ st1.size ∧
      st1.col = some (st1.max * 2 + 1) ∧
      st1.pkv = (if st.pkv.isNone ∧ strncmp pk fld.name fld.len = 0 then some v else st.pkv) := by
  have hesc := escape_eq_spec v SQUOTE 0
  have hel := escapeSpec_length_le SQUOTE 0 v
  have hen := escapeSpec_not_mem_zero SQUOTE 0 v hv
  have hc1 : cstr (escapeSpec SQUOTE 0 v ++ [0]) = escapeSpec SQUOTE 0 v :=
    cstr_append_zero _ [] hen
  have hc2 : cstr fld.name = fld.name := cstr_of_not_mem _ hfn
  have hsn : ∀ sep, snprintf (10 + fld.len + (escapeSpec SQUOTE 0 v).length)
      (fmtClause sep fld.name (escapeSpec SQUOTE 0 v))
      = fmtClause sep fld.name (escapeSpec SQUOTE 0 v) := by
    intro sep
    apply List.take_of_length_le
    rw [fmtClause_length, hfl]
    omega
  have hcolv : (if v.length > st.max then some (v.length * 2 + 1) else st.col)
      = some ((if v.length > st.max then v.length else st.max) * 2 + 1) := by
    by_cases hlt : v.length > st.max
    · simp [hlt]
    · rcases hcap with h | h
      · exact absurd h hlt
      · simp [hlt, h]
  have hmax : v.length ≤ (if v.length > st.max then v.length else st.max) := by
    split <;> omega
  have h64 : ¬ MYSQLIDLEN ≤ strlen fld.name := by
    simp only [strlen, hc2]
    omega
  simp only [updStep, hcol, hlen, Option.bind_eq_bind, Option.some_bind, hesc, hcolv, hc1, hc2,
    hsn, h64, if_false]
  have hA : ¬ ((if v.length > st.max then v.length else st.max) * 2 + 1
      < (escapeSpec SQUOTE 0 v ++ [0]).length) := by
    simp only [List.length_append, List.length_singleton]
    omega
  have hB : ¬ ((if st.cnt + (10 + fld.len + (escapeSpec SQUOTE 0 v).length) ≥ st.size then
        st.size + if 10 + fld.len + (escapeSpec SQUOTE 0 v).length ≤ bufsiz then bufsiz
          else 10 + fld.len + (escapeSpec SQUOTE 0 v).length
      else st.size) < st.cnt + (fmtClause (if st.cnt ≠ 0 then 44 else 32) fld.name
        (escapeSpec SQUOTE 0 v)).length + 1) := by
    rw [fmtClause_length, hfl]
    split
    · split <;> omega
    · omega
  simp only [hA, hB, if_false]
  refine ⟨_, rfl, ?_, ?_, ?_, rfl, rfl⟩
  · simp only [hbuf, hcnt]
    rw [writeAt_append acc tl _ htl (by simp)]
    simp
  · simp only [hcnt, List.length_append, fmtClause_length, hfl]
    omega
  · simp only
    rw [hfl]
    split
    · split <;> omega
    · omega


theorem get?_append_at {α : Type} (pre : List α) (v : α) (vs : List α) :
    (pre ++ v :: vs).get? pre.length = some v := by
  rw [List.get?_eq_getElem?, List.getElem?_append_right (Nat.le_refl _)]
  simp

theorem updLoop_ok (bufsiz : Nat) (item : Item) (pk : List Nat)
    (hlens : item.lens = item.cols.map List.length) :
    ∀ (flds : List Field) (vals pre : List (List Nat)) (st : UpdState) (acc tl : List Nat),
      item.cols = pre ++ vals →
      flds.length = vals.length →
      (∀ f ∈ flds, f.len = f.name.length ∧ 0 ∉ f.name ∧ f.name.length < MYSQLIDLEN) →
      (∀ v ∈ vals, 0 ∉ v) →
      st.sqlfds = acc ++ tl → tl.length ≤ 1 → st.cnt = acc.length → st.cnt ≤ st.size →
      (st.col = some (st.max * 2 + 1) ∨ ∃ v vs, vals = v :: vs ∧ st.max < v.length) →
      ∃ st1 tl1, updLoop bufsiz item pk flds pre.length st = some st1 ∧
        st1.sqlfds = acc ++ setClauses (decide (acc.length = 0)) flds
          (vals.map (escapeSpec SQUOTE 0)) ++ tl1 ∧
        (tl = [0] ∨ flds ≠ [] → tl1 = [0]) ∧
        st1.cnt = (acc ++ setClauses (decide (acc.length = 0)) flds
          (vals.map (escapeSpec SQUOTE 0))).length ∧
        st1.pkv = (if st.pkv.isNone then pkLookup pk flds vals else st.pkv) := by
  intro flds
  induction flds with
  | nil =>
    intro vals pre st acc tl _ hlen _ _ hbuf _ hcnt _ _
    refine ⟨st, tl, rfl, ?_, ?_, ?_, ?_⟩
    · simp [setClauses, hbuf]
    · intro h
      rcases h with h | h
      · exact h
      · exact absurd rfl h
    · simp [setClauses, hcnt]
    · cases h : st.pkv <;> simp [pkLookup]
  | cons f fs ih =>
    intro vals pre st acc tl hcols hlen hf hv hbuf htl hcnt hsize hcap
    cases vals with
    | nil => simp at hlen
    | cons v vs =>
      have hget : item.cols.get? pre.length = some v := by
        rw [hcols]; exact get?_append_at pre v vs
      have hgetl : item.lens.get? pre.length = some v.length := by
        rw [hlens, hcols, List.map_append, List.map_cons]
        have := get?_append_at (pre.map List.length) v.length (vs.map List.length)
        simpa using this
      have hfp := hf f (by simp)
      have hcap2 : st.max < v.length ∨ st.col = some (st.max * 2 + 1) := by
        rcases hcap with h | ⟨w, ws, hw, hlt⟩
        · exact Or.inr h
        · simp only [List.cons.injEq] at hw
          rw [hw.1]
          exact Or.inl hlt
      obtain ⟨st1, hstep, hb1, hc1, hs1, hcol1, hpk1⟩ :=
        updStep_ok bufsiz item pk pre.length f st v acc tl hget hgetl (hv v (by simp))
          hfp.1 hfp.2.1 hfp.2.2 hbuf htl hcnt hsize hcap2
      have hcols2 : item.cols = (pre ++ [v]) ++ vs := by simp [hcols]
      have hlen2 : fs.length = vs.length := by simpa using hlen
      obtain ⟨st2, tl2, hloop, hb2, ht2, hc2, hpk2⟩ :=
        ih vs (pre ++ [v]) st1 _ [0] hcols2 hlen2
          (fun g hg => hf g (by simp [hg])) (fun w hw => hv w (by simp [hw]))
          hb1 (by simp) hc1 hs1 (Or.inl hcol1)
      have hne : ¬ ((acc ++ fmtClause (if acc.length ≠ 0 then 44 else 32) f.name
          (escapeSpec SQUOTE 0 v)).length = 0) := by
        rw [List.length_append, fmtClause_length]
        omega
      have hsep : (if acc.length ≠ 0 then (44 : Nat) else 32)
          = (if decide (acc.length = 0) = true then 32 else 44) := by
        by_cases h0 : acc.length = 0 <;> simp [h0]
      simp only [hne, decide_False] at hb2 hc2
      simp only [List.length_append, List.length_singleton] at hloop
      refine ⟨st2, tl2, ?_, ?_, ?_, ?_, ?_⟩
      · simp only [updLoop, hstep, hloop]
      · rw [hb2, List.map_cons, setClauses, hsep]
        simp
      · intro _
        exact ht2 (Or.inl rfl)
      · rw [hc2, List.map_cons, setClauses, hsep]
        simp
      · rw [hpk2, hpk1, pkLookup]
        cases hp : st.pkv <;> by_cases hm : strncmp pk f.name f.len = 0 <;> simp [hm]

theorem setClauses_not_mem_zero :
    ∀ (flds : List Field) (lits : List (List Nat)) (first : Bool),
      (∀ f ∈ flds, 0 ∉ f.name) → (∀ l ∈ lits, 0 ∉ l) → 0 ∉ setClauses first flds lits := by
  intro flds
  induction flds with
  | nil => intro lits first _ _; simp [setClauses]
  | cons f fs ih =>
    intro lits first hf hv
    cases lits with
    | nil => simp [setClauses]
    | cons v vs =>
      simp only [setClauses, List.mem_append, not_or]
      refine ⟨?_, ih vs false (fun g hg => hf g (by simp [hg])) (fun w hw => hv w (by simp [hw]))⟩
      apply fmtClause_not_mem_zero
      · split <;> decide
      · exact hf f (by simp)
      · exact hv v (by simp)

theorem pkLookup_mem (pk : List Nat) :
    ∀ (flds : List Field) (vals : List (List Nat)) (pkv : List Nat),
      pkLookup pk flds vals = some pkv → pkv ∈ vals := by
  intro flds
  induction flds with
  | nil => intro vals pkv h; simp [pkLookup] at h
  | cons f fs ih =>
    intro vals pkv h
    cases vals with
    | nil => simp [pkLookup] at h
    | cons v vs =>
      simp only [pkLookup] at h
      split at h
      · simp only [Option.some.injEq] at h
        simp [h]
      · simp [ih vs pkv h]

/-- Layout of the statement on well-formed input whose first value is not empty:
the format of the source with the SET clauses in field order, each value escaped for
the single quote, and the raw value of the first field that `strncmp` accepts in the
WHERE clause. -/
theorem mksql_update_record_layout (bufsiz : Nat) (item : Item) (fields : List Field)
    (tbl pk pkv : List Nat)
    (hlens : item.lens = item.cols.map List.length)
    (hlen : fields.length = item.cols.length)
    (hf : ∀ f ∈ fields, f.len = f.name.length ∧ 0 ∉ f.name ∧ f.name.length < MYSQLIDLEN)
    (hv : ∀ v ∈ item.cols, 0 ∉ v) (htbl : 0 ∉ tbl) (hpk : 0 ∉ pk)
    (hfirst : ∃ v vs, item.cols = v :: vs ∧ v ≠ [])
    (hpkv : pkLookup pk fields item.cols = some pkv) :
    mksql_update_record bufsiz item fields tbl pk
      = some (fmtUpdate tbl (setClauses true fields (item.cols.map (escapeSpec SQUOTE 0)))
          pk pkv) := by
  obtain ⟨v0, vs0, hv0, hne0⟩ := hfirst
  have hpos : 0 < v0.length := List.length_pos.mpr hne0
  obtain ⟨st1, tl1, hloop, hb, ht, hc, hp⟩ :=
    updLoop_ok bufsiz item pk hlens fields item.cols []
      { pkv := none, max := 0, col := none, sqlfds := [], cnt := 0, size := 0 } [] []
      (by simp) hlen hf hv (by simp) (by simp) (by simp) (by simp)
      (Or.inr ⟨v0, vs0, hv0, hpos⟩)
  have hfne : fields ≠ [] := by
    intro h
    rw [h, hv0] at hlen
    simp at hlen
  have htl := ht (Or.inr hfne)
  simp only [List.length_nil, decide_True, List.nil_append, Option.isNone_none, if_true] at hb hc hp
  have hz : 0 ∉ setClauses true fields (item.cols.map (escapeSpec SQUOTE 0)) := by
    apply setClauses_not_mem_zero fields _ true (fun f h => (hf f h).2.1)
    intro l hl
    obtain ⟨v, hvm, rfl⟩ := List.mem_map.mp hl
    exact escapeSpec_not_mem_zero _ _ _ (hv v hvm)
  have hcs : cstr st1.sqlfds = setClauses true fields (item.cols.map (escapeSpec SQUOTE 0)) := by
    rw [hb, htl]
    exact cstr_append_zero _ [] hz
  have hpz : 0 ∉ pkv := hv pkv (pkLookup_mem pk fields item.cols pkv hpkv)
  simp only [List.length_nil] at hloop
  simp only [mksql_update_record, hloop, Option.bind_eq_bind, Option.some_bind, hp, hpkv, hcs,
    cstr_of_not_mem _ htbl, cstr_of_not_mem _ hpk, cstr_of_not_mem _ hpz, strlen, hc,
    Option.some.injEq]
  apply List.take_of_length_le
  rw [fmtUpdate_length]
  omega

/-! ## Column widths -/

theorem set_append_at (pre : List Nat) (r x : Nat) (rs : List Nat) :
    (pre ++ r :: rs).set pre.length x = pre ++ x :: rs := by
  induction pre with
  | nil => rfl
  | cons a pre ih => simp [List.set, ih]

theorem fieldsLoop_eq :
    ∀ (fs : List Field) (pre rest : List Nat), fs.length ≤ rest.length →
      fieldsLoop fs pre.length (pre ++ rest)
        = some (pre ++ fs.map (fun f => capped f.len) ++ rest.drop fs.length) := by
  intro fs
  induction fs with
  | nil => intro pre rest _; simp [fieldsLoop]
  | cons f fs ih =>
    intro pre rest h
    cases rest with
    | nil => simp at h
    | cons r rs =>
      have hlt : pre.length < (pre ++ r :: rs).length := by simp
      have h2 : fs.length ≤ rs.length := by simpa using h
      have := ih (pre ++ [capped f.len]) rs h2
      simp only [List.length_append, List.length_singleton, List.append_assoc,
        List.singleton_append] at this
      simp only [fieldsLoop, hlt, if_true, set_append_at, this]
      simp

theorem colsLoop_eq (item : Item) :
    ∀ (fuel : Nat) (pre rest ipre irest : List Nat), item.lens = ipre ++ irest →
      ipre.length = pre.length → irest.length = fuel → rest.length = fuel →
      colsLoop item fuel pre.length (pre ++ rest)
        = some (pre ++ List.zipWith (fun l il => if l < il then capped il else l) rest irest) := by
  intro fuel
  induction fuel with
  | zero =>
    intro pre rest ipre irest _ _ h1 h2
    have : rest = [] := List.length_eq_zero.mp h2
    simp [colsLoop, this]
  | succ n ih =>
    intro pre rest ipre irest hl hp h1 h2
    cases rest with
    | nil => simp at h2
    | cons r rs =>
      cases irest with
      | nil => simp at h1
      | cons il ils =>
        have hg1 : (pre ++ r :: rs).get? pre.length = some r := by
          rw [List.get?_eq_getElem?, List.getElem?_append_right (Nat.le_refl _)]; simp
        have hg2 : item.lens.get? pre.length = some il := by
          rw [hl, ← hp, List.get?_eq_getElem?, List.getElem?_append_right (Nat.le_refl _)]; simp
        have hrec := ih (pre ++ [if r < il then capped il else r]) rs (ipre ++ [il]) ils
          (by simp [hl]) (by simp [hp]) (by simpa using h1) (by simpa using h2)
        simp only [List.length_append, List.length_singleton, List.append_assoc,
          List.singleton_append] at hrec
        simp only [colsLoop, hg1, hg2, List.zipWith_cons_cons]
        by_cases hlt : r < il
        · simp only [hlt, if_true, set_append_at] at hrec ⊢
          exact hrec
        · simp only [hlt, if_false] at hrec ⊢
          exact hrec

theorem itemsLoop_eq :
    ∀ (items : List Item) (lens : List Nat),
      (∀ it ∈ items, it.ncols = lens.length ∧ it.lens.length = lens.length) →
      itemsLoop items lens
        = some (items.foldl
            (fun l it => List.zipWith (fun l il => if l < il then capped il else l) l it.lens)
            lens) := by
  intro items
  induction items with
  | nil => intro lens _; rfl
  | cons it rest ih =>
    intro lens h
    have hit := h it (by simp)
    have hc := colsLoop_eq it it.ncols [] lens [] it.lens rfl rfl (by omega) (by omega)
    simp only [List.length_nil, List.nil_append] at hc
    simp only [itemsLoop, hc, List.foldl_cons]
    apply ih
    intro jt hj
    have := h jt (by simp [hj])
    simp only [List.length_zipWith]
    omega

theorem maxValLen_cons (it : Item) (rest : List Item) (i : Nat) :
    maxValLen (it :: rest) i = max (it.lens.getD i 0) (maxValLen rest i) := by
  simp [maxValLen]

theorem foldl_widths :
    ∀ (items : List Item) (lens : List Nat),
      (∀ it ∈ items, it.lens.length = lens.length) →
      (∀ (i l : Nat), lens[i]? = some l → l ≤ MAXCOLSZ) →
      (items.foldl
          (fun l it => List.zipWith (fun l il => if l < il then capped il else l) l it.lens)
          lens).length = lens.length ∧
      ∀ (i l : Nat), lens[i]? = some l →
        (items.foldl
          (fun l it => List.zipWith (fun l il => if l < il then capped il else l) l it.lens)
          lens)[i]? = some (min MAXCOLSZ (max l (maxValLen items i))) := by
  intro items
  induction items with
  | nil =>
    intro lens _ hcap
    refine ⟨rfl, ?_⟩
    intro i l hl
    have := hcap i l hl
    simp only [List.foldl_nil, hl, maxValLen, List.map_nil, List.foldr_nil, Option.some.injEq]
    omega
  | cons it rest ih =>
    intro lens hlen hcap
    have hit : it.lens.length = lens.length := hlen it (by simp)
    have hz : (List.zipWith (fun l il => if l < il then capped il else l) lens it.lens).length
        = lens.length := by
      simp only [List.length_zipWith]; omega
    have hget : ∀ (i l : Nat), lens[i]? = some l →
        (List.zipWith (fun l il => if l < il then capped il else l) lens it.lens)[i]?
          = some (min MAXCOLSZ (max l (it.lens.getD i 0))) := by
      intro i l hl
      have hi : i < lens.length := by
        rcases List.getElem?_eq_some_iff.mp hl with ⟨h, _⟩
        exact h
      have hi2 : i < it.lens.length := by omega
      have hl2 : it.lens[i]? = some (it.lens[i]) := List.getElem?_eq_getElem hi2
      have hcapl := hcap i l hl
      simp only [List.getElem?_zipWith, hl, hl2, List.getD_eq_getElem?_getD, Option.getD_some,
        Option.map_some', Option.bind_some, Option.some.injEq]
      unfold capped
      split
      · split <;> omega
      · omega
    have hcap2 : ∀ (i l : Nat),
        (List.zipWith (fun l il => if l < il then capped il else l) lens it.lens)[i]? = some l →
        l ≤ MAXCOLSZ := by
      intro i l hl
      have hi : i < lens.length := by
        rcases List.getElem?_eq_some_iff.mp hl with ⟨h, _⟩
        omega
      have h0 : lens[i]? = some (lens[i]) := List.getElem?_eq_getElem hi
      rw [hget i _ h0] at hl
      simp only [Option.some.injEq] at hl
      omega
    obtain ⟨hl1, hl2⟩ := ih _ (fun jt hj => by rw [hz]; exact hlen jt (by simp [hj])) hcap2
    refine ⟨by rw [List.foldl_cons, hl1, hz], ?_⟩
    intro i l hl
    rw [List.foldl_cons, hl2 i _ (hget i l hl), maxValLen_cons]
    simp only [Option.some.injEq]
    omega

/-! ## The claims on escaping and on the UPDATE statement -/

/-- With an empty first value no statement is produced, whatever the other values,
the fields and the key are: in the first iteration `item->lens[0] > max` is `0 > 0`,
`col` stays NULL and `escape` stores its terminator through it. -/
theorem mksql_update_record_null_col (bufsiz id : Nat) (rest : List (List Nat)) (f : Field)
    (fields : List Field) (tbl pk : List Nat) :
    mksql_update_record bufsiz (mkItem id ([] :: rest)) (f :: fields) tbl pk = none := by
  have hstep : updStep bufsiz (mkItem id ([] :: rest)) pk 0 f
      { pkv := none, max := 0, col := none, sqlfds := [], cnt := 0, size := 0 } = none := by
    simp [updStep, mkItem]
  simp [mksql_update_record, updLoop, hstep]

/-- For a name without NUL, `strncmp(pk, name, strlen(name))` is `0` exactly when the
name is a prefix of `pk`. -/
theorem strncmpLoop_eq_zero_iff :
    ∀ (nm p pre : List Nat), 0 ∉ nm →
      (strncmpLoop (pre ++ p) (pre ++ nm) nm.length pre.length = 0 ↔ nm <+: p) := by
  intro nm
  induction nm with
  | nil => intro p pre _; simp [strncmpLoop]
  | cons x nm ih =>
    intro p pre h0
    have hx : x ≠ 0 := fun e => h0 (by simp [e])
    have hnm : 0 ∉ nm := fun e => h0 (by simp [e])
    have hb : (pre ++ x :: nm).getD pre.length 0 = x := getD_append_at pre x nm
    cases p with
    | nil =>
      have ha : (pre ++ ([] : List Nat)).getD pre.length 0 = 0 := by
        simp [List.getD_eq_getElem?_getD]
      simp only [List.length_cons, strncmpLoop, ha, hb]
      have hne : (0 : Nat) ≠ x := fun e => hx e.symm
      simp only [hne, ne_eq, not_false_eq_true, if_true]
      constructor
      · intro h
        have : (x : Int) = 0 := by omega
        exact absurd (by exact_mod_cast this) hx
      · intro h
        simp at h
    | cons y p =>
      have ha : (pre ++ y :: p).getD pre.length 0 = y := getD_append_at pre y p
      simp only [List.length_cons, strncmpLoop, ha, hb]
      by_cases hyx : y = x
      · subst hyx
        have hrec := ih p (pre ++ [y]) hnm
        simp only [List.length_append, List.length_singleton, List.append_assoc,
          List.singleton_append] at hrec
        simp only [ne_eq, not_true_eq_false, if_false, hx, hrec]
        simp [List.cons_prefix_cons]
      · simp only [ne_eq, hyx, not_false_eq_true, if_true]
        constructor
        · intro h
          have : (y : Int) = x := by omega
          exact absurd (by exact_mod_cast this) hyx
        · intro h
          have := (List.cons_prefix_cons.mp h).1
          exact absurd this.symm hyx

theorem strncmp_eq_zero_iff_prefix (pk : List Nat) (f : Field) (hl : f.len = f.name.length)
    (h0 : 0 ∉ f.name) : strncmp pk f.name f.len = 0 ↔ f.name <+: pk := by
  have := strncmpLoop_eq_zero_iff f.name pk [] h0
  simpa [strncmp, hl] using this

/-- C1 (failing input): for the record `["", "5"]` of a table with the columns `note`
and `id`, `mksql_update_record` has no result. The first value is empty, so
`item->lens[0] > max` is false, `col` is never allocated, and `escape` stores its
terminator through the NULL pointer; no statement is returned although the claim
promises one for every item. -/
theorem mksql_update_record_empty_first_value (bufsiz : Nat) :
    mksql_update_record bufsiz (mkItem 1 [bytes "", bytes "5"])
      [mkField (bytes "note"), mkField (bytes "id")] (bytes "users") (bytes "id") = none :=
  mksql_update_record_null_col bufsiz 1 [bytes "5"] (mkField (bytes "note"))
    [mkField (bytes "id")] (bytes "users") (bytes "id")

/-- C2: `escape(esc, s, sz, c, q)` on a string `s` of `sz` bytes stores exactly the
left-to-right scan of the specification (a backslash before a byte iff the byte is `c`
and `q` is `0` or the next byte is not `q`, the byte after the last one being the
terminator), followed by a NUL, and returns the number of bytes before that NUL. -/
theorem escape_refines_spec (s : List Nat) (c q : Nat) :
    (escape s s.length c q).1 = escapeSpec c q s ++ [0] ∧
    (escape s s.length c q).2 = (escapeSpec c q s).length := by
  rw [escape_eq_spec]
  exact ⟨rfl, rfl⟩

/-- C3 (failing input): for the item `["O'Brien"]` with the single field `name`, which
is also the key, the SET clause carries the escaped value but the WHERE clause carries
the raw one: `pkv` is the pointer `item->cols[i]`, not the escaped copy in `col`. -/
theorem mksql_update_record_where_unescaped (bufsiz : Nat) :
    mksql_update_record bufsiz (mkItem 1 [bytes "O'Brien"]) [mkField (bytes "name")]
      (bytes "users") (bytes "name")
    = some (bytes "UPDATE `users` SET\n `name` = 'O\\'Brien'\nWHERE `name` = 'O'Brien'") := by
  rw [mksql_update_record_layout bufsiz _ _ _ _ (bytes "O'Brien") rfl rfl (by decide)
    (by decide) (by decide) (by decide) ⟨_, _, rfl, by decide⟩ (by decide)]
  decide

/-- C4 (counterexample): for the stored value `a\b` the SET clause is `'a\b'`; the
statement contains no doubled backslash, so the backslash of the value was not
escaped. -/
theorem mksql_update_record_backslash_kept :
    mksql_update_record 8192 (mkItem 1 [bytes "a\\b"]) [mkField (bytes "v")]
      (bytes "t") (bytes "v")
      = some (bytes "UPDATE `t` SET\n `v` = 'a\\b'\nWHERE `v` = 'a\\b'") ∧
    ¬ (bytes "a\\\\b" <:+:
      bytes "UPDATE `t` SET\n `v` = 'a\\b'\nWHERE `v` = 'a\\b'") := by
  constructor
  · rw [mksql_update_record_layout 8192 _ _ _ _ (bytes "a\\b") rfl rfl (by decide)
      (by decide) (by decide) (by decide) ⟨_, _, rfl, by decide⟩ (by decide)]
    decide
  · decide

/-- C4 (amended): on well-formed input (as many values as fields, lengths matching
the values, names and values free of NUL, names shorter than `MYSQLIDLEN`, first value
not empty, a field accepted for `pk`) the literal of every SET clause is the stored
value with a backslash put in front of every single quote and every other byte,
backslashes included, copied unchanged. -/
theorem mksql_update_record_set_values_quote_escaped (bufsiz : Nat) (item : Item)
    (fields : List Field) (tbl pk pkv : List Nat)
    (hlens : item.lens = item.cols.map List.length)
    (hlen : fields.length = item.cols.length)
    (hf : ∀ f ∈ fields, f.len = f.name.length ∧ 0 ∉ f.name ∧ f.name.length < MYSQLIDLEN)
    (hv : ∀ v ∈ item.cols, 0 ∉ v) (htbl : 0 ∉ tbl) (hpk : 0 ∉ pk)
    (hfirst : ∃ v vs, item.cols = v :: vs ∧ v ≠ [])
    (hpkv : pkLookup pk fields item.cols = some pkv) :
    mksql_update_record bufsiz item fields tbl pk
      = some (fmtUpdate tbl (setClauses true fields (item.cols.map quoteEscaped)) pk pkv) := by
  rw [mksql_update_record_layout bufsiz item fields tbl pk pkv hlens hlen hf hv htbl hpk
    hfirst hpkv]
  have h : item.cols.map (escapeSpec SQUOTE 0) = item.cols.map quoteEscaped :=
    List.map_congr_left (fun v _ => escapeSpec_squote v)
  rw [h]

/-- C4 (witness): the amended statement at the item `["it's", "a\b"]`. -/
theorem mksql_update_record_set_values_quote_escaped_witness :
    mksql_update_record 8192 (mkItem 1 [bytes "it's", bytes "a\\b"])
      [mkField (bytes "s"), mkField (bytes "v")] (bytes "t") (bytes "s")
    = some (bytes "UPDATE `t` SET\n `s` = 'it\\'s'\n,`v` = 'a\\b'\nWHERE `s` = 'it's'") := by
  rw [mksql_update_record_set_values_quote_escaped 8192 _ _ _ _ (bytes "it's") rfl rfl
    (by decide) (by decide) (by decide) (by decide) ⟨_, _, rfl, by decide⟩ (by decide)]
  decide

/-- C5 (failing input): with the fields `i`, `id`, the values `x`, `5` and the key
column `id`, the WHERE clause carries `x`: `strncmp(pk, fld->name, fld->len)` compares
only the first `fld->len` bytes, so the field `i`, a proper prefix of `id`, is taken
as the key column. -/
theorem mksql_update_record_prefix_match (bufsiz : Nat) :
    mksql_update_record bufsiz (mkItem 1 [bytes "x", bytes "5"])
      [mkField (bytes "i"), mkField (bytes "id")] (bytes "t") (bytes "id")
    = some (bytes "UPDATE `t` SET\n `i` = 'x'\n,`id` = '5'\nWHERE `id` = 'x'") := by
  rw [mksql_update_record_layout bufsiz _ _ _ _ (bytes "x") rfl rfl (by decide)
    (by decide) (by decide) (by decide) ⟨_, _, rfl, by decide⟩ (by decide)]
  decide

/-- C6 (counterexample): the statement for the item `["5","Jane"]` is not the one-line
string of the claim. -/
theorem mksql_update_record_not_single_line :
    mksql_update_record 8192 (mkItem 1 [bytes "5", bytes "Jane"])
      [mkField (bytes "id"), mkField (bytes "name")] (bytes "users") (bytes "id")
    ≠ some (bytes "UPDATE `users` SET `id` = '5', `name` = 'Jane' WHERE `id` = '5'") := by
  rw [mksql_update_record_layout 8192 _ _ _ _ (bytes "5") rfl rfl (by decide)
    (by decide) (by decide) (by decide) ⟨_, _, rfl, by decide⟩ (by decide)]
  decide

/-- C6 (amended): for the values `vals` of a row (first one not empty) and the columns
`names`, all free of NUL, the statement is exactly `UPDATE`, the quoted table, `SET`,
then for each field in order a newline, a space (first clause) or a comma (later
clauses) and the clause, then a newline and the WHERE clause on `pk` with the value
of the first field accepted by `strncmp`. -/
theorem mksql_update_record_exact_layout (bufsiz id : Nat) (names vals : List (List Nat))
    (tbl pk pkv : List Nat)
    (hlen : names.length = vals.length)
    (hn : ∀ n ∈ names, 0 ∉ n ∧ n.length < MYSQLIDLEN)
    (hv : ∀ v ∈ vals, 0 ∉ v) (htbl : 0 ∉ tbl) (hpk : 0 ∉ pk)
    (hfirst : ∃ v vs, vals = v :: vs ∧ v ≠ [])
    (hpkv : pkLookup pk (names.map mkField) vals = some pkv) :
    mksql_update_record bufsiz (mkItem id vals) (names.map mkField) tbl pk
      = some (bytes "UPDATE `" ++ tbl ++ bytes "` SET"
          ++ setClauses true (names.map mkField) (vals.map (escapeSpec SQUOTE 0))
          ++ bytes "\nWHERE `" ++ pk ++ bytes "` = '" ++ pkv ++ bytes "'") := by
  have hf : ∀ f ∈ names.map mkField,
      f.len = f.name.length ∧ 0 ∉ f.name ∧ f.name.length < MYSQLIDLEN := by
    intro f hfm
    obtain ⟨n, hnm, rfl⟩ := List.mem_map.mp hfm
    exact ⟨rfl, (hn n hnm).1, (hn n hnm).2⟩
  rw [mksql_update_record_layout bufsiz (mkItem id vals) (names.map mkField) tbl pk pkv rfl
    (by simpa [mkItem] using hlen) hf hv htbl hpk hfirst hpkv]
  rfl

/-- C6 (witness): the statement for the item `["5","Jane"]` with the fields `id`,
`name`, the table `users` and the key `id`. -/
theorem mksql_update_record_exact_layout_witness :
    mksql_update_record 8192 (mkItem 1 [bytes "5", bytes "Jane"])
      ([bytes "id", bytes "name"].map mkField) (bytes "users") (bytes "id")
    = some (bytes "UPDATE `users` SET\n `id` = '5'\n,`name` = 'Jane'\nWHERE `id` = '5'") := by
  rw [mksql_update_record_exact_layout 8192 1 [bytes "id", bytes "name"]
    [bytes "5", bytes "Jane"] (bytes "users") (bytes "id") (bytes "5") rfl (by decide)
    (by decide) (by decide) (by decide) ⟨_, _, rfl, by decide⟩ (by decide)]
  decide

/-- C7 (counterexample): escaping `O'Brien` twice for `'` does not give three
backslashes before the quote. -/
theorem escape_twice_not_three_backslashes :
    (escape (escape (bytes "O'Brien") 7 SQUOTE 0).1 (escape (bytes "O'Brien") 7 SQUOTE 0).2
      SQUOTE 0).1 ≠ bytes "O\\\\\\'Brien" ++ [0] := by
  decide

/-- C7 (amended): escaping `O'Brien` for `'` gives `O\'Brien` (8 bytes), and escaping
that result again gives `O\\'Brien` (9 bytes, two backslashes before the quote): the
transform is not idempotent. -/
theorem escape_twice_two_backslashes :
    escape (bytes "O'Brien") 7 SQUOTE 0 = (bytes "O\\'Brien" ++ [0], 8) ∧
    escape (escape (bytes "O'Brien") 7 SQUOTE 0).1 (escape (bytes "O'Brien") 7 SQUOTE 0).2
      SQUOTE 0 = (bytes "O\\\\'Brien" ++ [0], 9) := by
  decide

/-! ## The claims on the cursor, the column widths and forward navigation -/

theorem capped_le (n : Nat) : capped n ≤ MAXCOLSZ := by
  unfold capped
  split <;> simp_all [MAXCOLSZ]

theorem fieldsLoop_widths (fields : List Field) (n : Nat)
    (hfields : fields = [] ∨ fields.length = n) :
    ∃ lens1, fieldsLoop fields 0 (List.replicate n 0) = some lens1 ∧ lens1.length = n ∧
      ∀ (i : Nat), i < n → lens1[i]? = some (capped (fieldLen fields i)) := by
  rcases hfields with h | h
  · subst h
    refine ⟨List.replicate n 0, rfl, by simp, ?_⟩
    intro i hi
    simp [fieldLen, capped, hi]
  · have := fieldsLoop_eq fields [] (List.replicate n 0) (by simp [h])
    simp only [List.length_nil, List.nil_append] at this
    rw [← h, List.drop_of_length_le (by simp), List.append_nil] at this
    refine ⟨_, by rw [← h]; exact this, by simp [h], ?_⟩
    intro i hi
    have hi2 : i < fields.length := by omega
    simp [fieldLen, List.get?_eq_getElem?, List.getElem?_eq_getElem hi2]

/-- C9: when every item has `n` columns (and `n` lengths) and the fields are absent or
`n` in number, `getmaxlengths` returns an array of `n` widths, and the width of
column `i` is `min(MAXCOLSZ, max(name length of field i, longest value length in
column i))`, a missing field counting as length `0`. -/
theorem getmaxlengths_widths (items : List Item) (fields : List Field) (n : Nat)
    (hitems : ∀ it ∈ items, it.ncols = n ∧ it.lens.length = n)
    (hfields : fields = [] ∨ fields.length = n)
    (hne : items ≠ [] ∨ fields ≠ []) :
    ∃ lens, getmaxlengths items fields = some (some lens) ∧ lens.length = n ∧
      ∀ (i : Nat), i < n →
        lens[i]? = some (min MAXCOLSZ (max (fieldLen fields i) (maxValLen items i))) := by
  have hnc : ncolsOf items fields = n := by
    unfold ncolsOf
    cases items with
    | nil =>
      rcases hfields with h | h
      · rcases hne with h2 | h2
        · exact absurd rfl h2
        · exact absurd h h2
      · exact h
    | cons it rest => exact (hitems it (by simp)).1
  have hne2 : ¬ (items = [] ∧ fields = []) := by
    intro h
    rcases hne with h2 | h2
    · exact h2 h.1
    · exact h2 h.2
  obtain ⟨lens1, hf1, hl1, hg1⟩ := fieldsLoop_widths fields n hfields
  have hi1 := itemsLoop_eq items lens1 (fun it h => by rw [hl1]; exact hitems it h)
  obtain ⟨hw1, hw2⟩ := foldl_widths items lens1
    (fun it h => by rw [hl1]; exact (hitems it h).2)
    (fun i l h => by
      have hi : i < n := by
        rcases List.getElem?_eq_some_iff.mp h with ⟨h', _⟩
        omega
      rw [hg1 i hi] at h
      simp only [Option.some.injEq] at h
      rw [← h]
      exact capped_le _)
  refine ⟨_, ?_, by rw [hw1, hl1], ?_⟩
  · simp only [getmaxlengths, hne2, if_false, hnc, hf1, hi1]
  · intro i hi
    rw [hw2 i _ (hg1 i hi)]
    simp only [Option.some.injEq]
    unfold capped
    split <;> omega

/-- C9 (witness): the values `a` and `abcdefg` in one column without fields give the
width 7. -/
theorem getmaxlengths_widths_witness :
    ∃ lens, getmaxlengths [mkItem 1 [bytes "a"], mkItem 2 [bytes "abcdefg"]] []
        = some (some lens) ∧ lens.length = 1 ∧ lens[0]? = some 7 := by
  obtain ⟨lens, h, hl, hi⟩ :=
    getmaxlengths_widths [mkItem 1 [bytes "a"], mkItem 2 [bytes "abcdefg"]] [] 1
      (by decide) (Or.inl rfl) (Or.inl (by decide))
  refine ⟨lens, h, hl, ?_⟩
  rw [hi 0 (by decide)]
  decide

theorem sel_setSel (s : State) (v w : View) (h : s.sel = some v) : (s.setSel w).sel = some w := by
  unfold State.sel at h ⊢
  unfold State.setSel
  cases hk : s.selview with
  | none => simp [hk] at h
  | some k =>
    simp only [hk] at h ⊢
    have hlt : k < s.views.length := by
      rw [List.get?_eq_getElem?] at h
      rcases List.getElem?_eq_some_iff.mp h with ⟨h', _⟩
      exact h'
    simp [List.get?_eq_getElem?, List.getElem?_set, hlt]

theorem set_same {α : Type} :
    ∀ (l : List α) (k : Nat) (v : α), l.get? k = some v → l.set k v = l := by
  intro l
  induction l with
  | nil => intro k v h; simp at h
  | cons a l ih =>
    intro k v h
    cases k with
    | zero =>
      simp only [List.get?_cons_zero, Option.some.injEq] at h
      simp [h]
    | succ k =>
      simp only [List.get?_cons_succ] at h
      simp [ih k v h]

theorem setSel_self (s : State) (v : View) (h : s.sel = some v) : s.setSel v = s := by
  unfold State.sel at h
  unfold State.setSel
  cases s with
  | mk views selview running status died =>
    cases selview with
    | none => rfl
    | some k =>
      simp only at h ⊢
      rw [set_same views k v h]

theorem itemsel_down (s : State) (v : View) (h : s.sel = some v)
    (hc0 : 0 ≤ v.cur) (hc1 : v.cur ≤ v.nitems - 1) :
    (itemsel s 1).sel = some { v with cur := min (v.nitems - 1) (v.cur + 1) } := by
  have hpos : (if v.cur + 1 < 0 then (0 : Int)
      else if v.cur + 1 ≥ v.nitems then v.nitems - 1 else v.cur + 1)
      = min (v.nitems - 1) (v.cur + 1) := by
    split
    · omega
    · split <;> omega
  simp only [itemsel, h, hpos]
  exact sel_setSel s v _ h

theorem itemsel_iterate (n : Nat) :
    ∀ (s : State) (v : View), s.sel = some v → 0 ≤ v.cur → v.cur ≤ v.nitems - 1 →
      ((fun t => itemsel t 1)^[n] s).sel
        = some { v with cur := min (v.nitems - 1) (v.cur + (n : Int)) } := by
  induction n with
  | zero =>
    intro s v h _ hc1
    have : min (v.nitems - 1) (v.cur + ((0 : Nat) : Int)) = v.cur := by
      simp only [Nat.cast_zero, add_zero]
      omega
    simp only [Function.iterate_zero, id_eq, h, this]
  | succ n ih =>
    intro s v h hc0 hc1
    have h1 := itemsel_down s v h hc0 hc1
    have h2 := ih (itemsel s 1) _ h1 (by simp only; omega) (by simp only; omega)
    rw [Function.iterate_succ_apply, h2]
    congr 2
    simp only [Nat.cast_add, Nat.cast_one]
    omega

/-- C8: on a view with the cursor in `[0, nitems-1]` (so `nitems >= 1`), `itemsel`
with any step `d`, in particular `-1` and `+1`, only replaces the cursor, by `cur + d`
clamped into `[0, nitems-1]` (items and `nitems` stay); up from `0` and down from
`nitems-1` leave the state as it is; and after `n` moves down the cursor is
`min(nitems-1, cur+n)`, so it reaches `nitems-1` and stays there. -/
theorem itemsel_clamps (s : State) (v : View) (d : Int) (h : s.sel = some v)
    (hc0 : 0 ≤ v.cur) (hc1 : v.cur ≤ v.nitems - 1) :
    itemsel s d = s.setSel { v with cur := max 0 (min (v.nitems - 1) (v.cur + d)) } ∧
    (itemsel s d).sel = some { v with cur := max 0 (min (v.nitems - 1) (v.cur + d)) } ∧
    (v.cur = 0 → itemsel s (-1) = s) ∧
    (v.cur = v.nitems - 1 → itemsel s 1 = s) ∧
    ∀ n : Nat, ((fun t => itemsel t 1)^[n] s).sel
      = some { v with cur := min (v.nitems - 1) (v.cur + (n : Int)) } := by
  have hpos : ∀ e : Int, (if v.cur + e < 0 then (0 : Int)
      else if v.cur + e ≥ v.nitems then v.nitems - 1 else v.cur + e)
      = max 0 (min (v.nitems - 1) (v.cur + e)) := by
    intro e
    split
    · omega
    · split <;> omega
  have h1 : itemsel s d
      = s.setSel { v with cur := max 0 (min (v.nitems - 1) (v.cur + d)) } := by
    simp only [itemsel, h, hpos]
  refine ⟨h1, ?_, ?_, ?_, fun n => itemsel_iterate n s v h hc0 hc1⟩
  · rw [h1]
    exact sel_setSel s v _ h
  · intro h0
    have : max 0 (min (v.nitems - 1) (v.cur + -1)) = v.cur := by omega
    simp only [itemsel, h, hpos, this]
    exact setSel_self s v h
  · intro h0
    have : max 0 (min (v.nitems - 1) (v.cur + 1)) = v.cur := by omega
    simp only [itemsel, h, hpos, this]
    exact setSel_self s v h

/-- C8 (witness): with `nitems = 3`, five moves down from `0` end at `2`. -/
theorem itemsel_clamps_witness :
    ((fun t => itemsel t 1)^[5] exState).sel = some { exView with cur := 2 } := by
  have h := (itemsel_clamps exState exView 1 rfl (by decide) (by decide)).2.2.2.2 5
  rw [h]
  rfl

theorem iscurmode_iff (s : State) (v : View) (code : Int) (k : Key) (hsel : s.sel = some v) :
    (ISCURMODE s k.mode = true ∧ k.modkey = code) ↔ qualifies v.mode.name code k := by
  unfold qualifies ISCURMODE
  cases hm : k.mode with
  | none => simp
  | some name =>
    simp only [hsel, decide_eq_true_eq, Option.some.injEq, false_or, reduceCtorEq]
    constructor
    · rintro ⟨h1, h2⟩
      exact ⟨h1.symm, h2⟩
    · rintro ⟨h1, h2⟩
      exact ⟨h1.symm, h2⟩

theorem findKey_first (s : State) (v : View) (code : Int) (hsel : s.sel = some v) :
    ∀ (tbl : List Key) (i : Nat) (k : Key), tbl.get? i = some k →
      qualifies v.mode.name code k →
      (∀ j kj, j < i → tbl.get? j = some kj → ¬ qualifies v.mode.name code kj) →
      findKey s code tbl = some k := by
  intro tbl
  induction tbl with
  | nil => intro i k h; simp at h
  | cons a rest ih =>
    intro i k hget hq hbefore
    cases i with
    | zero =>
      simp only [List.get?_cons_zero, Option.some.injEq] at hget
      subst hget
      simp only [findKey, (iscurmode_iff s v code a hsel).mpr hq, and_self, if_true]
    | succ i =>
      have ha : ¬ qualifies v.mode.name code a := hbefore 0 a (Nat.succ_pos i) rfl
      have ha2 : ¬ (ISCURMODE s a.mode = true ∧ a.modkey = code) :=
        fun h => ha ((iscurmode_iff s v code a hsel).mp h)
      simp only [findKey, ha2, if_false]
      apply ih i k (by simpa using hget) hq
      intro j kj hj hgj
      exact hbefore (j + 1) kj (Nat.succ_lt_succ hj) (by simpa using hgj)

theorem findKey_none (s : State) (v : View) (code : Int) (hsel : s.sel = some v) :
    ∀ (tbl : List Key), (∀ k ∈ tbl, ¬ qualifies v.mode.name code k) →
      findKey s code tbl = none := by
  intro tbl
  induction tbl with
  | nil => intro _; rfl
  | cons a rest ih =>
    intro h
    have ha2 : ¬ (ISCURMODE s a.mode = true ∧ a.modkey = code) :=
      fun h2 => h a (by simp) ((iscurmode_iff s v code a hsel).mp h2)
    simp only [findKey, ha2, if_false]
    exact ih (fun k hk => h k (by simp [hk]))

theorem keys_modkey_nonneg : ∀ k ∈ keys, 0 ≤ k.modkey := by
  decide

/-- C13: for every key code, every state with a current view and whatever the
functions of the table do, one pass of the dispatch loop over the table of
config.def.h calls the function of the entry of lowest index whose mode filter is NULL
or the mode name of the current view and whose key is the code, with that entry's
argument (after clearing the status line), and calls nothing else; when no entry
qualifies the state is unchanged. In the mode `databases` the code of `q` reaches the
earlier mode-independent entry (`viewprev`), not the later `databases` entry (`quit`). -/
theorem runStep_first_match (act : KeyFn → Int → State → State) (s : State) (v : View)
    (code : Int) (hsel : s.sel = some v) :
    (∀ i k, keys.get? i = some k → qualifies v.mode.name code k →
      (∀ j kj, j < i → keys.get? j = some kj → ¬ qualifies v.mode.name code kj) →
      runStep act keys s code = act k.func k.arg (ui_set_status s "")) ∧
    ((∀ k ∈ keys, ¬ qualifies v.mode.name code k) → runStep act keys s code = s) ∧
    (v.mode.name = "databases" →
      runStep act keys s 113 = act .viewprev 0 (ui_set_status s "")) := by
  refine ⟨?_, ?_, ?_⟩
  · intro i k hget hq hbefore
    have hmem : k ∈ keys := List.get?_mem hget
    have hnn : ¬ code < 0 := by
      have h1 := keys_modkey_nonneg k hmem
      have h2 := hq.2
      omega
    simp only [runStep, hnn, if_false, findKey_first s v code hsel keys i k hget hq hbefore]
  · intro hnone
    simp only [runStep, findKey_none s v code hsel keys hnone]
    split <;> rfl
  · intro hname
    have hq : qualifies v.mode.name 113 { mode := none, modkey := 113, func := .viewprev, arg := 0 } :=
      ⟨Or.inl rfl, rfl⟩
    have hf := findKey_first s v 113 hsel keys 1 _ rfl hq (by
      intro j kj hj hgj
      have hj0 : j = 0 := by omega
      subst hj0
      simp only [keys, List.get?_cons_zero, Option.some.injEq] at hgj
      subst hgj
      intro hq2
      have := hq2.2
      simp at this)
    have hnn : ¬ ((113 : Int) < 0) := by decide
    simp only [runStep, hnn, if_false, hf]

/-- C13 (witness): on the sample state, whose mode is `databases`, the newline key
reaches the entry `tables`, the first that qualifies (index 8). -/
theorem runStep_first_match_witness :
    runStep exAct keys exState 10 = viewdb (ui_set_status exState "") (some exTables) :=
  (runStep_first_match exAct exState exView 10 rfl).1 8
    { mode := some "databases", modkey := 10, func := .tables, arg := 0 } rfl
    ⟨Or.inr rfl, rfl⟩ (by
      intro j kj hj hgj hq
      have h10 := hq.2
      have hmem : j = 0 ∨ j = 1 ∨ j = 2 ∨ j = 3 ∨ j = 4 ∨ j = 5 ∨ j = 6 ∨ j = 7 := by omega
      rcases hmem with h | h | h | h | h | h | h | h <;> subst h <;>
        simp [keys, KEY_UP, KEY_DOWN] at hgj <;> subst hgj <;> simp at h10)

/-- C14 (counterexample): when `show tables` fails after Enter on the first database
of the sample state, the process is ended by `die`; no status message is set and the
current view is not the one the key was pressed in. -/
theorem listing_failure_not_recovered :
    (viewdb exState none).died = some "show tables" ∧
    (viewdb exState none).status = exState.status ∧
    (viewdb exState none).sel ≠ exState.sel ∧
    (reload exState none).died = some "show databases" := by
  decide

theorem fillview_died (s : State) (r : MysqlRes) (b : Bool) :
    (mysql_fillview s r b).died = s.died := by
  unfold mysql_fillview State.setSel
  cases s.sel <;> cases s.selview <;> rfl

/-- C14 (amended): when the listing query of `viewdblist_show`, `viewdb_show` or
`viewtable_show` fails, the process is ended by `die` with the message of that
function; the views, the selection and the status line are as they were when the
function was entered, no status message is set. This holds in forward navigation
(where the new view is already pushed) and in reload alike, so a failed listing query
terminates the process just as a failed connection does. A listing query that
succeeds does not end the process. -/
theorem listing_failure_dies (s : State) :
    (∀ f : ShowFn, (f.run s none).died = some f.dieMsg ∧ (f.run s none).views = s.views ∧
      (f.run s none).selview = s.selview ∧ (f.run s none).status = s.status ∧
      ∀ r, (f.run s (some r)).died = s.died) ∧
    (∀ item, getitem s 0 = some item →
      (viewdb s none).died = some "show tables" ∧
      (viewtable s none).died = some "select from `%s`") ∧
    (∀ v f, s.sel = some v → v.mode.func = some f → (reload s none).died = some f.dieMsg) := by
  refine ⟨?_, ?_, ?_⟩
  · intro f
    refine ⟨?_, ?_, ?_, ?_, ?_⟩
    · cases f <;> rfl
    · cases f <;> rfl
    · cases f <;> rfl
    · cases f <;> rfl
    · intro r
      cases f <;> exact fillview_died s r _
  · intro item hitem
    simp only [viewdb, viewtable, hitem]
    exact ⟨rfl, rfl⟩
  · intro v f hsel hf
    simp only [reload, hsel, hf]
    cases f <;> rfl

/-- C14 (witness): the amended statement on the sample state. -/
theorem listing_failure_dies_witness :
    (viewdb exState none).died = some "show tables" ∧
    (viewtable exState none).died = some "select from `%s`" ∧
    (reload exState none).died = some "show databases" :=
  ⟨((listing_failure_dies exState).2.1 (mkItem 1 [bytes "mysql"]) rfl).1,
   ((listing_failure_dies exState).2.1 (mkItem 1 [bytes "mysql"]) rfl).2,
   (listing_failure_dies exState).2.2 exView .viewdblist_show rfl rfl⟩

theorem range_map_getD (row : List (List Nat)) :
    (List.range row.length).map (fun i => row.getD i []) = row := by
  apply List.ext_getElem
  · simp
  · intro i h1 h2
    simp [List.getD_eq_getElem?_getD, List.getElem?_eq_getElem h2]

theorem mysql_itemsLoop_eq (nfds : Nat) :
    ∀ (rows : List (List (List Nat))) (id : Nat) (items : List Item),
      (∀ row ∈ rows, row.length = nfds) →
      mysql_itemsLoop nfds rows id items
        = items ++ (rows.enumFrom id).map (fun p => loadedItem nfds p.1 p.2) := by
  intro rows
  induction rows with
  | nil => intro id items _; simp [mysql_itemsLoop]
  | cons row rest ih =>
    intro id items h
    have hrow : row.length = nfds := h row (by simp)
    have hcols : (List.range nfds).map (fun i => row.getD i []) = row := by
      rw [← hrow]
      exact range_map_getD row
    simp only [mysql_itemsLoop, hcols, attachitem, List.enumFrom_cons, List.map_cons]
    rw [ih (id + 1) _ (fun r hr => h r (by simp [hr]))]
    simp [loadedItem]

theorem mysql_fieldsLoop_eq :
    ∀ (fds : List MysqlField) (fields : List Field),
      (∀ fd ∈ fds, fd.name_length ≤ MYSQLIDLEN) →
      mysql_fieldsLoop fds fields
        = some (fields ++ fds.map (fun fd =>
            ({ name := fd.name.take fd.name_length, len := fd.name_length } : Field))) := by
  intro fds
  induction fds with
  | nil => intro fields _; simp [mysql_fieldsLoop]
  | cons fd rest ih =>
    intro fields h
    have hfd : ¬ MYSQLIDLEN < fd.name_length := by
      have := h fd (by simp)
      omega
    simp only [mysql_fieldsLoop, hfd, if_false, attachfield, List.map_cons]
    rw [ih _ (fun g hg => h g (by simp [hg]))]
    simp

/-- Loading a well-formed result set whose column names fit `name[MYSQLIDLEN]`: for a
result with `c` columns whose rows have `c` cells each and whose column metadata has
`c` entries with names of at most `MYSQLIDLEN` bytes, `mysql_items` returns the row
count and builds one item per row in row order, the item at position `k` (from 0)
having `id = k + 1`, `ncols = c`, the cells of the row and their byte lengths; every
item has `c` columns; and `mysql_fields` returns `c` and builds `c` fields, field `i`
holding the name of column `i` and its length. -/
theorem mysql_load_within_bound (res : MysqlRes)
    (hrows : ∀ row ∈ res.rows, row.length = res.num_fields)
    (hfl : res.fields.length = res.num_fields)
    (hnames : ∀ fd ∈ res.fields, fd.name_length = fd.name.length ∧ fd.name.length ≤ MYSQLIDLEN) :
    (mysql_items res).2 = (res.rows.length : Int) ∧
    (mysql_items res).1.length = res.rows.length ∧
    (∀ k row, res.rows.get? k = some row →
      (mysql_items res).1.get? k
        = some { cols := row, lens := row.map List.length, ncols := res.num_fields,
                 id := k + 1 }) ∧
    (∀ it ∈ (mysql_items res).1, it.ncols = res.num_fields ∧
      it.cols.length = res.num_fields ∧ it.lens.length = res.num_fields) ∧
    ∃ fl, mysql_fields res [] = some (fl, (res.num_fields : Int)) ∧
      fl.length = res.num_fields ∧
      ∀ i fd, res.fields.get? i = some fd →
        fl.get? i = some { name := fd.name, len := fd.name.length } := by
  have hitems : (mysql_items res).1
      = (res.rows.enumFrom 0).map (fun p => loadedItem res.num_fields p.1 p.2) := by
    simp only [mysql_items]
    rw [mysql_itemsLoop_eq res.num_fields res.rows 0 [] hrows]
    simp
  have hfields : mysql_fields res []
      = some (res.fields.map (fun fd => ({ name := fd.name, len := fd.name.length } : Field)),
          (res.num_fields : Int)) := by
    unfold mysql_fields
    by_cases h0 : res.num_fields = 0
    · have : res.fields = [] := List.length_eq_zero.mp (by omega)
      simp [h0, this]
    · simp only [h0, if_false]
      rw [← hfl, List.take_length, mysql_fieldsLoop_eq _ _ (fun fd hfd => by
        have := hnames fd hfd
        omega), List.nil_append]
      simp only [Option.some.injEq, Prod.mk.injEq, and_true]
      apply List.map_congr_left
      intro fd hfd
      have := (hnames fd hfd).1
      rw [this, List.take_length]
  refine ⟨rfl, ?_, ?_, ?_, _, hfields, ?_, ?_⟩
  · rw [hitems]
    simp
  · intro k row hk
    rw [hitems, List.get?_eq_getElem?, List.getElem?_map, List.getElem?_enumFrom]
    rw [List.get?_eq_getElem?] at hk
    simp [hk, loadedItem]
  · intro it hit
    rw [hitems] at hit
    obtain ⟨p, hp, rfl⟩ := List.mem_map.mp hit
    have hrow : p.2 ∈ res.rows := by
      rw [(List.mem_enumFrom hp).2.2]
      exact List.getElem_mem _
    have := hrows p.2 hrow
    simp [loadedItem, this]
  · simp [hfl]
  · intro i fd hi
    rw [List.get?_eq_getElem?, List.getElem?_map]
    rw [List.get?_eq_getElem?] at hi
    simp [hi]

/-- Loading the sample result of `show tables`. -/
theorem mysql_load_sample :
    (mysql_items exTables).1
      = [ { cols := [bytes "db"], lens := [2], ncols := 1, id := 1 },
          { cols := [bytes "user"], lens := [4], ncols := 1, id := 2 } ] ∧
    (mysql_items exTables).2 = 2 ∧
    mysql_fields exTables [] = some ([{ name := bytes "Tables_in_mysql", len := 15 }], 1) := by
  decide

/-- Whenever a column name of the result is longer than `MYSQLIDLEN` bytes,
`mysql_fields` has no defined result. -/
theorem mysql_fieldsLoop_overrun :
    ∀ (fds : List MysqlField) (fields : List Field),
      (∃ fd ∈ fds, MYSQLIDLEN < fd.name_length) → mysql_fieldsLoop fds fields = none := by
  intro fds
  induction fds with
  | nil => intro fields h; simp at h
  | cons fd rest ih =>
    intro fields h
    by_cases hfd : MYSQLIDLEN < fd.name_length
    · simp [mysql_fieldsLoop, hfd]
    · simp only [mysql_fieldsLoop, hfd, if_false]
      apply ih
      obtain ⟨g, hg, hlt⟩ := h
      rcases List.mem_cons.mp hg with h1 | h1
      · subst h1
        exact absurd hlt hfd
      · exact ⟨g, h1, hlt⟩

/-- C15 (failing input): for a result set with one row and one column whose name is
70 bytes long, `mysql_items` loads the row as the claim says, but `mysql_fields` has
no defined result: `memcpy(field->name, fds[i].name, field->len)` stores 70 bytes into
`name[MYSQLIDLEN]` with `MYSQLIDLEN = 64`, so no field carrying the name of the column
is produced. -/
theorem mysql_fields_long_name_overrun :
    (mysql_items exLongName).1 = [{ cols := [bytes "1"], lens := [1], ncols := 1, id := 1 }] ∧
    (mysql_items exLongName).2 = 1 ∧
    mysql_fields exLongName [] = none := by
  decide

theorem itemsel_empty_down (s : State) (v : View) (hsel : s.sel = some v)
    (hn : v.nitems = 0) (hc : v.cur = 0) :
    (itemsel s 1).sel = some { v with cur := -1 } := by
  have hpos : (if v.cur + 1 < 0 then (0 : Int)
      else if v.cur + 1 ≥ v.nitems then v.nitems - 1 else v.cur + 1) = -1 := by
    rw [hn, hc]
    decide
  simp only [itemsel, hsel, hpos]
  exact sel_setSel s v _ hsel

/-- C16 (failing input): on a view without rows (`nitems = 0`, `cur = 0`), `itemsel`
with `+1` sets the cursor to `-1`: `pos = 1` is not negative, `pos >= nitems` holds
and `pos = nitems - 1` is stored. With `-1` the cursor stays at `0`. -/
theorem itemsel_empty_view_negative :
    (itemsel exEmptyState 1).sel = some { exEmptyView with cur := -1 } ∧
    (itemsel exEmptyState (-1)).sel = some exEmptyView := by
  exact ⟨itemsel_empty_down exEmptyState exEmptyView rfl rfl rfl, rfl⟩

end Myadm
